import Mathlib

/-!
Verification of the card/text recognition core of the poker-assistant
repository, shallowly embedded in Lean 4.

Conventions of the embedding:
* Python `float` values are modelled as exact rationals (`ℚ`).  All the
  constants involved (0.12, 0.15, 0.01, 0.02, 0.3, 0.15, 0.2, 0.35, 0.07,
  1e-9, …) are written as the rationals the source literals denote.
* Python `Optional[str]` is `Option String`; Python truthiness of such a
  value (used by `if card.rank and card.suit:` and
  `if rank_valid and rank_main`) is `pyTruthyStr`: `None` and the empty
  string are falsy.
* Python `dict`s (insertion ordered) are association lists
  `List (String × ℚ)` with first-occurrence order preserved on update
  (`dictSet`) and `dict.get` as `dictGet?` / `dictGetD`.
* `numpy` images are total functions from coordinates to grey values.
* Exceptions are `Except String`.
-/

/-- `GameState` enum of `card_recognition.py` (street machine). -/
inductive GameState where
  | preflop
  | flop
  | turn
  | river
deriving DecidableEq, Repr

/-- `CardResult` dataclass of `card_recognition.py`.  Score maps are
insertion-ordered association lists, confidences are exact rationals. -/
structure CardResult where
  rank : Option String := none
  suit : Option String := none
  rank_confidence : ℚ := 0
  suit_confidence : ℚ := 0
  combined_confidence : ℚ := 0
  is_uncertain : Bool := true
  rank_scores : List (String × ℚ) := []
  suit_scores : List (String × ℚ) := []
deriving DecidableEq, Repr

/-- The default `CardResult()` used to fill slots that are never written
(all fields at their dataclass defaults, `__post_init__` turning the
score maps into `{}`). -/
def defaultCardResult : CardResult := {}

/-- Python truthiness of an `Optional[str]`: `None` and `""` are falsy. -/
def pyTruthyStr : Option String → Bool
  | none => false
  | some s => !s.isEmpty

/-- One board slot counts as visible when `card.rank and card.suit` is
truthy (`_update_game_state`, line 646). -/
def cardVisible (c : CardResult) : Bool :=
  pyTruthyStr c.rank && pyTruthyStr c.suit

/-- Number of visible board cards (`visible_cards`, line 646). -/
def visibleCards (board : List CardResult) : Nat :=
  board.countP cardVisible

/-- `CardRecognitionPipeline._update_game_state` (lines 638-663): the
street-update step, returning the new street from the previous one and
the board slots.  Counts other than 0/3/4/5 leave the street unchanged. -/
def update_game_state (prev : GameState) (board : List CardResult) : GameState :=
  let visible := visibleCards board
  if visible = 0 then GameState.preflop
  else if visible = 3 then GameState.flop
  else if visible = 4 then GameState.turn
  else if visible = 5 then GameState.river
  else prev

/-! ### Validity gates (`recognize_cards`, lines 727-737)

The pipeline constants of `CardRecognitionPipeline.__init__`:
`min_top1_score = 0.35`, `min_top1_margin = 0.07`. -/

def min_top1_score : ℚ := 35 / 100

def min_top1_margin : ℚ := 7 / 100

/-- Board-slot rank gate, line 732:
`r_top1 >= max(0.12, min_top1_score - 0.25) and r_margin >= max(0.01, min_top1_margin - 0.08)`. -/
def boardRankGate (top1 margin : ℚ) : Bool :=
  decide (top1 ≥ max (12 / 100) (min_top1_score - 25 / 100)) &&
    decide (margin ≥ max (1 / 100) (min_top1_margin - 8 / 100))

/-- Board-slot suit gate, line 733 (same expression as the rank gate). -/
def boardSuitGate (top1 margin : ℚ) : Bool :=
  decide (top1 ≥ max (12 / 100) (min_top1_score - 25 / 100)) &&
    decide (margin ≥ max (1 / 100) (min_top1_margin - 8 / 100))

/-- Hero-slot rank gate, line 736:
`r_top1 >= max(0.15, min_top1_score - 0.20) and r_margin >= max(0.02, min_top1_margin - 0.05)`. -/
def heroRankGate (top1 margin : ℚ) : Bool :=
  decide (top1 ≥ max (15 / 100) (min_top1_score - 20 / 100)) &&
    decide (margin ≥ max (2 / 100) (min_top1_margin - 5 / 100))

/-- Hero-slot suit gate, line 737:
`s_top1 >= max(0.15, min_top1_score - 0.20) and s_margin >= max(0.01, min_top1_margin - 0.06)`.
Note the margin floor `0.01` (not `0.02` as for the hero rank gate). -/
def heroSuitGate (top1 margin : ℚ) : Bool :=
  decide (top1 ≥ max (15 / 100) (min_top1_score - 20 / 100)) &&
    decide (margin ≥ max (1 / 100) (min_top1_margin - 6 / 100))

/-- C1: the street-update step maps visible-board-card count 0 to preflop,
3 to flop, 4 to turn, 5 to river, and leaves the street unchanged on the
transient counts 1 and 2. -/
theorem street_update_spec (prev : GameState) (b0 b1 b2 b3 b4 : CardResult) :
    (visibleCards [b0, b1, b2, b3, b4] = 0 →
      update_game_state prev [b0, b1, b2, b3, b4] = GameState.preflop) ∧
    (visibleCards [b0, b1, b2, b3, b4] = 3 →
      update_game_state prev [b0, b1, b2, b3, b4] = GameState.flop) ∧
    (visibleCards [b0, b1, b2, b3, b4] = 4 →
      update_game_state prev [b0, b1, b2, b3, b4] = GameState.turn) ∧
    (visibleCards [b0, b1, b2, b3, b4] = 5 →
      update_game_state prev [b0, b1, b2, b3, b4] = GameState.river) ∧
    (visibleCards [b0, b1, b2, b3, b4] = 1 ∨ visibleCards [b0, b1, b2, b3, b4] = 2 →
      update_game_state prev [b0, b1, b2, b3, b4] = prev) := by
  refine ⟨?_, ?_, ?_, ?_, ?_⟩ <;> intro h
  · simp [update_game_state, h]
  · simp [update_game_state, h]
  · simp [update_game_state, h]
  · simp [update_game_state, h]
  · rcases h with h | h <;> simp [update_game_state, h]

/-- Witness for C1: a concrete board with three fully populated slots
drives the street to flop. -/
theorem street_update_spec_witness :
    update_game_state GameState.preflop
      [{ rank := some "A", suit := some "h" }, { rank := some "K", suit := some "d" },
       { rank := some "7", suit := some "s" }, defaultCardResult, defaultCardResult]
      = GameState.flop :=
  (street_update_spec GameState.preflop
      { rank := some "A", suit := some "h" } { rank := some "K", suit := some "d" }
      { rank := some "7", suit := some "s" } defaultCardResult defaultCardResult).2.1
    (by decide)

/-- C3, counterexample: the hero suit gate accepts top1 = 0.5 with margin
0.015, although the claimed hero threshold demands margin ≥ 0.02.  (The
source's hero suit margin floor is `max(0.01, 0.07 - 0.06) = 0.01`.) -/
theorem hero_suit_gate_cex :
    heroSuitGate (1 / 2) (3 / 200) = true ∧ ¬ ((3 / 200 : ℚ) ≥ 2 / 100) := by
  refine ⟨?_, by norm_num⟩
  unfold heroSuitGate min_top1_score min_top1_margin
  simp only [Bool.and_eq_true, decide_eq_true_eq, ge_iff_le]
  constructor <;> norm_num [max_le_iff]

/-- C3, amended: the gates accept exactly at the slot-type thresholds
board 0.12/0.01 (both gates), hero rank 0.15/0.02, hero suit 0.15/0.01
— the hero suit margin floor is 0.01, not 0.02. -/
theorem validity_gate_thresholds (top1 margin : ℚ) :
    (boardRankGate top1 margin = true ↔ top1 ≥ 12 / 100 ∧ margin ≥ 1 / 100) ∧
    (boardSuitGate top1 margin = true ↔ top1 ≥ 12 / 100 ∧ margin ≥ 1 / 100) ∧
    (heroRankGate top1 margin = true ↔ top1 ≥ 15 / 100 ∧ margin ≥ 2 / 100) ∧
    (heroSuitGate top1 margin = true ↔ top1 ≥ 15 / 100 ∧ margin ≥ 1 / 100) := by
  have hb : max (12 / 100 : ℚ) (min_top1_score - 25 / 100) = 12 / 100 := by
    rw [min_top1_score]; norm_num
  have hbm : max (1 / 100 : ℚ) (min_top1_margin - 8 / 100) = 1 / 100 := by
    rw [min_top1_margin]; norm_num
  have hh : max (15 / 100 : ℚ) (min_top1_score - 20 / 100) = 15 / 100 := by
    rw [min_top1_score]; norm_num
  have hhm : max (2 / 100 : ℚ) (min_top1_margin - 5 / 100) = 2 / 100 := by
    rw [min_top1_margin]; norm_num
  have hsm : max (1 / 100 : ℚ) (min_top1_margin - 6 / 100) = 1 / 100 := by
    rw [min_top1_margin]; norm_num
  simp only [boardRankGate, boardSuitGate, heroRankGate, heroSuitGate, hb, hbm, hh, hhm, hsm,
    Bool.and_eq_true, decide_eq_true_eq, ge_iff_le]
  tauto

/-! ### Family selection (`_choose_family_with_margin`, lines 522-530)

`sorted(fam_scores.items(), key=lambda kv: kv[1], reverse=True)` is a
stable sort by descending score; `List.insertionSort` with the relation
"left score not below right score" computes exactly that order (stable,
descending). -/

/-- The ordering used by the descending stable sort of
`_choose_family_with_margin`: `a` may precede `b` when `a`'s score is
not below `b`'s. -/
def scoreGE (a b : String × ℚ) : Prop := b.2 ≤ a.2

instance : DecidableRel scoreGE := fun a b => inferInstanceAs (Decidable (b.2 ≤ a.2))

instance : IsTotal (String × ℚ) scoreGE := ⟨fun a b => le_total b.2 a.2⟩

instance : IsTrans (String × ℚ) scoreGE := ⟨fun _ _ _ h1 h2 => le_trans h2 h1⟩

/-- `CardRecognitionPipeline._choose_family_with_margin` (lines 522-530):
from the aggregated family scores, `(family, top1, margin)`.  The empty
map yields `(None, 0.0, 0.0)`; a single family yields
`(label, score, score)`; otherwise margin is `max(0.0, top1 - top2)`. -/
def choose_family_with_margin (fam_scores : List (String × ℚ)) : Option String × ℚ × ℚ :=
  match List.insertionSort scoreGE fam_scores with
  | [] => (none, 0, 0)
  | [(l, s)] => (some l, s, s)
  | (l1, s1) :: (_, s2) :: _ => (some l1, s1, max 0 (s1 - s2))

/-- C4, counterexample: on the single-family map `{"A": 0.9}` the
selection returns margin `0.9` (the top1 score), not `0` as claimed. -/
theorem choose_family_singleton_cex :
    (choose_family_with_margin [("A", 9 / 10)]).2.2 = 9 / 10 ∧ (9 / 10 : ℚ) ≠ 0 := by
  constructor
  · rfl
  · norm_num

/-- C4, amended: on a non-empty aggregated family-score map the selection
returns a family bearing the maximal score, with margin top1 − top2 when
at least two families exist (top2 being the greatest remaining score after
deleting one copy of the top score); when exactly one family exists the
returned margin equals the top1 score itself, not 0. -/
theorem choose_family_spec (fam : List (String × ℚ)) (hne : fam ≠ []) :
    ∃ l : String,
      (choose_family_with_margin fam).1 = some l ∧
      (l, (choose_family_with_margin fam).2.1) ∈ fam ∧
      (∀ p ∈ fam, p.2 ≤ (choose_family_with_margin fam).2.1) ∧
      (fam.length = 1 →
        (choose_family_with_margin fam).2.2 = (choose_family_with_margin fam).2.1) ∧
      (2 ≤ fam.length →
        ((choose_family_with_margin fam).2.1 - (choose_family_with_margin fam).2.2)
            ∈ (fam.map Prod.snd).erase (choose_family_with_margin fam).2.1 ∧
        ∀ q ∈ (fam.map Prod.snd).erase (choose_family_with_margin fam).2.1,
          q ≤ (choose_family_with_margin fam).2.1 - (choose_family_with_margin fam).2.2) := by
  have hperm : List.Perm (List.insertionSort scoreGE fam) fam := List.perm_insertionSort scoreGE fam
  have hsort : List.Sorted scoreGE (List.insertionSort scoreGE fam) :=
    List.sorted_insertionSort scoreGE fam
  rcases h : List.insertionSort scoreGE fam with _ | ⟨⟨l1, s1⟩, rest⟩
  · rw [h] at hperm
    exact absurd hperm.symm.eq_nil hne
  · rcases rest with _ | ⟨⟨l2, s2⟩, t⟩
    · rw [h] at hperm
      have hfam : fam = [(l1, s1)] := List.perm_singleton.mp hperm.symm
      have e1 : choose_family_with_margin fam = (some l1, s1, s1) := by
        simp only [choose_family_with_margin]
        rw [h]
      rw [e1]
      refine ⟨l1, rfl, ?_, ?_, ?_, ?_⟩
      · rw [hfam]
        simp
      · intro p hp
        rw [hfam] at hp
        rcases List.mem_singleton.mp hp with rfl
        exact le_refl _
      · intro _
        rfl
      · intro hlen
        rw [hfam] at hlen
        simp at hlen
    · rw [h] at hperm hsort
      rcases List.sorted_cons.mp hsort with ⟨h1, hsort2⟩
      rcases List.sorted_cons.mp hsort2 with ⟨h2, _⟩
      have hs21 : s2 ≤ s1 := h1 (l2, s2) (List.mem_cons_self _ _)
      have hmargin : max 0 (s1 - s2) = s1 - s2 := max_eq_right (sub_nonneg.mpr hs21)
      have e1 : choose_family_with_margin fam = (some l1, s1, s1 - s2) := by
        simp only [choose_family_with_margin]
        rw [h]
        show (some l1, s1, max 0 (s1 - s2)) = (some l1, s1, s1 - s2)
        rw [hmargin]
      have ef : (choose_family_with_margin fam).1 = some l1 := by rw [e1]
      have et : (choose_family_with_margin fam).2.1 = s1 := by rw [e1]
      have em : (choose_family_with_margin fam).2.2 = s1 - s2 := by rw [e1]
      have herase : List.Perm (s2 :: t.map Prod.snd) ((fam.map Prod.snd).erase s1) := by
        have hm : List.Perm (((l1, s1) :: (l2, s2) :: t).map Prod.snd) (fam.map Prod.snd) :=
          hperm.map Prod.snd
        have := hm.erase s1
        simpa [List.erase_cons_head] using this
      rw [ef, et, em]
      have hsub : s1 - (s1 - s2) = s2 := by ring
      refine ⟨l1, rfl, ?_, ?_, ?_, ?_⟩
      · exact hperm.mem_iff.mp (List.mem_cons_self _ _)
      · intro p hp
        rcases List.mem_cons.mp (hperm.mem_iff.mpr hp) with hph | hpt
        · rw [hph]
        · exact h1 p hpt
      · intro hlen
        have hlen2 : fam.length = t.length + 2 := by
          rw [← hperm.length_eq]
          simp
        omega
      · intro _
        rw [hsub]
        refine ⟨?_, ?_⟩
        · exact herase.mem_iff.mp (List.mem_cons_self _ _)
        · intro q hq
          rcases List.mem_cons.mp (herase.mem_iff.mpr hq) with hqh | hqt
          · rw [hqh]
          · rcases List.mem_map.mp hqt with ⟨p, hpt, hpq⟩
            rw [← hpq]
            exact h2 p hpt

/-- Witness for C4: the two-family map `{"A": 0.9, "K": 0.3}` — the
selection picks "A" with top1 = 0.9, and the margin satisfies the
top1 − top2 characterization. -/
theorem choose_family_spec_witness :
    ∃ l : String,
      (choose_family_with_margin [("A", 9 / 10), ("K", 3 / 10)]).1 = some l ∧
      (l, (choose_family_with_margin [("A", 9 / 10), ("K", 3 / 10)]).2.1)
          ∈ [("A", (9 : ℚ) / 10), ("K", 3 / 10)] ∧
      (∀ p ∈ [("A", (9 : ℚ) / 10), ("K", 3 / 10)],
        p.2 ≤ (choose_family_with_margin [("A", 9 / 10), ("K", 3 / 10)]).2.1) ∧
      (([("A", (9 : ℚ) / 10), ("K", 3 / 10)] : List (String × ℚ)).length = 1 →
        (choose_family_with_margin [("A", 9 / 10), ("K", 3 / 10)]).2.2 =
          (choose_family_with_margin [("A", 9 / 10), ("K", 3 / 10)]).2.1) ∧
      (2 ≤ ([("A", (9 : ℚ) / 10), ("K", 3 / 10)] : List (String × ℚ)).length →
        ((choose_family_with_margin [("A", 9 / 10), ("K", 3 / 10)]).2.1 -
              (choose_family_with_margin [("A", 9 / 10), ("K", 3 / 10)]).2.2)
            ∈ (([("A", (9 : ℚ) / 10), ("K", 3 / 10)]).map Prod.snd).erase
                (choose_family_with_margin [("A", 9 / 10), ("K", 3 / 10)]).2.1 ∧
        ∀ q ∈ (([("A", (9 : ℚ) / 10), ("K", 3 / 10)]).map Prod.snd).erase
                (choose_family_with_margin [("A", 9 / 10), ("K", 3 / 10)]).2.1,
          q ≤ (choose_family_with_margin [("A", 9 / 10), ("K", 3 / 10)]).2.1 -
                (choose_family_with_margin [("A", 9 / 10), ("K", 3 / 10)]).2.2) :=
  choose_family_spec [("A", 9 / 10), ("K", 3 / 10)] (by simp)

/-! ### Family aggregation (`_aggregate_family_scores`, lines 514-520) -/

/-- Lookup in a Python dict modelled as an insertion-ordered association
list. -/
def dictGet? : List (String × ℚ) → String → Option ℚ
  | [], _ => none
  | (k, v) :: rest, f => if k = f then some v else dictGet? rest f

/-- `d.get(k, dflt)`. -/
def dictGetD (d : List (String × ℚ)) (k : String) (dflt : ℚ) : ℚ :=
  (dictGet? d k).getD dflt

/-- `d[k] = v`: update in place when the key exists (keeping its
first-insertion position), append otherwise. -/
def dictSet : List (String × ℚ) → String → ℚ → List (String × ℚ)
  | [], k, v => [(k, v)]
  | (k', v') :: rest, k, v =>
      if k' = k then (k', v) :: rest else (k', v') :: dictSet rest k v

/-- `label.split("_")[0]`: the family prefix before the first underscore
(`main` in `_aggregate_family_scores`, also used by `_format_card_label`);
the characters before the first `'_'` (the whole label when none). -/
def familyOf (label : String) : String :=
  String.mk (label.data.takeWhile (fun c => c ≠ '_'))

/-- The loop body of `_aggregate_family_scores`:
`fam[main] = max(fam.get(main, 0.0), float(s))`, iterated over the score
map in insertion order. -/
def aggAux : List (String × ℚ) → List (String × ℚ) → List (String × ℚ)
  | fam, [] => fam
  | fam, (label, s) :: rest =>
      aggAux (dictSet fam (familyOf label) (max (dictGetD fam (familyOf label) 0) s)) rest

/-- `CardRecognitionPipeline._aggregate_family_scores` (lines 514-520). -/
def aggregate_family_scores (scores : List (String × ℚ)) : List (String × ℚ) :=
  aggAux [] scores

theorem dictGet_dictSet (d : List (String × ℚ)) (k : String) (v : ℚ) (f : String) :
    dictGet? (dictSet d k v) f = if k = f then some v else dictGet? d f := by
  induction d with
  | nil => simp [dictSet, dictGet?]
  | cons p rest ih =>
    obtain ⟨k', v'⟩ := p
    by_cases hk : k' = k
    · subst hk
      by_cases hf : k' = f <;> simp [dictSet, dictGet?, hf]
    · by_cases hf : k' = f
      · subst hf
        have : ¬ k = k' := fun hc => hk hc.symm
        simp [dictSet, dictGet?, hk, this]
      · simp [dictSet, dictGet?, hk, hf, ih]

/-- The per-family running value of the aggregation loop: starting from
accumulator `fam`, after consuming `scores` the entry of family `f` is
the fold of `max` over the family's scores, seeded with the previous
entry (or started at the first score clamped below at 0 when the family
was absent). -/
theorem aggAux_dictGet (scores : List (String × ℚ)) (fam : List (String × ℚ)) (f : String) :
    dictGet? (aggAux fam scores) f =
      (match dictGet? fam f with
       | some v => some (((scores.filter (fun p => familyOf p.1 = f)).map Prod.snd).foldl max v)
       | none =>
          match (scores.filter (fun p => familyOf p.1 = f)).map Prod.snd with
          | [] => none
          | q :: qs => some (qs.foldl max (max 0 q))) := by
  induction scores generalizing fam with
  | nil =>
    cases hf : dictGet? fam f <;> simp [aggAux, hf]
  | cons p rest ih =>
    obtain ⟨label, s⟩ := p
    by_cases hfam : familyOf label = f
    · rw [aggAux, ih]
      rw [dictGet_dictSet, if_pos hfam, hfam]
      cases hf : dictGet? fam f <;>
        simp [List.filter_cons, hfam, dictGetD, hf, List.foldl_cons]
    · rw [aggAux, ih]
      rw [dictGet_dictSet, if_neg hfam]
      cases hf : dictGet? fam f <;>
        simp [List.filter_cons, hfam, hf]

/-- C6, counterexample: aggregation of the singleton score map
`{"A_1": -0.5}` yields `{"A": 0.0}` — the accumulator starts at the
default `0.0`, so the maximum score `-0.5` of the family is not kept. -/
theorem aggregate_negative_cex :
    aggregate_family_scores [("A_1", -(1 / 2))] = [("A", 0)] ∧ ((0 : ℚ) ≠ -(1 / 2)) := by
  constructor
  · have h : aggregate_family_scores [("A_1", -(1 / 2))] = [("A", max 0 (-(1 / 2)))] := rfl
    rw [h]
    norm_num
  · norm_num

/-- C6, amended: aggregation groups labels by the prefix before the first
underscore and keeps, per family, the maximum of `0` and the family's
scores (the `fam.get(main, 0.0)` seed clamps negative scores at 0);
on the all-nonnegative example `{"A_1":0.9, "A_2":0.6, "K_1":0.3}`
this is the plain maximum, giving `{"A":0.9, "K":0.3}`. -/
theorem aggregate_family_scores_spec :
    aggregate_family_scores [("A_1", 9 / 10), ("A_2", 6 / 10), ("K_1", 3 / 10)] =
      [("A", 9 / 10), ("K", 3 / 10)] ∧
    ∀ (scores : List (String × ℚ)) (f : String),
      dictGet? (aggregate_family_scores scores) f =
        (match (scores.filter (fun p => familyOf p.1 = f)).map Prod.snd with
         | [] => none
         | q :: qs => some (qs.foldl max (max 0 q))) := by
  constructor
  · have h : aggregate_family_scores [("A_1", 9 / 10), ("A_2", 6 / 10), ("K_1", 3 / 10)] =
        [("A", max (max 0 (9 / 10)) (6 / 10)), ("K", max 0 (3 / 10))] := rfl
    rw [h]
    norm_num
  · intro scores f
    rw [aggregate_family_scores, aggAux_dictGet]
    rfl

/-! ### Per-slot card result (`recognize_cards`, lines 706-764)

The sigmoid confidence
`1.0 / (1.0 + np.exp(-(confidence_alpha * top1 + confidence_beta * margin)))`
is a transcendental function evaluated in floating point; the properties
claimed about a slot's `CardResult` do not depend on its values, so the
embedding takes the sigmoid as a function parameter applied to
`(top1, margin)` exactly where the source applies `_sigmoid_conf`. -/

/-- `confidence_threshold = 0.3` from `CardRecognitionPipeline.__init__`. -/
def confidence_threshold : ℚ := 3 / 10

/-- `rank_mapping` of `_init_card_formatting` (identity on the 13 rank
symbols). -/
def rank_mapping : List (String × String) :=
  [("A", "A"), ("K", "K"), ("Q", "Q"), ("J", "J"), ("T", "T"), ("9", "9"), ("8", "8"),
   ("7", "7"), ("6", "6"), ("5", "5"), ("4", "4"), ("3", "3"), ("2", "2")]

/-- `suit_mapping` of `_init_card_formatting` (identity on the 4 suit
symbols). -/
def suit_mapping : List (String × String) :=
  [("h", "h"), ("d", "d"), ("c", "c"), ("s", "s")]

/-- `dict.get(k, dflt)` over a string-to-string dict. -/
def strMapGetD : List (String × String) → String → String → String
  | [], _, dflt => dflt
  | (k', v) :: rest, k, dflt => if k' = k then v else strMapGetD rest k dflt

/-- `CardRecognitionPipeline._format_card_label` (lines 210-227): empty
input maps to `""`; otherwise the part before the first underscore is
looked up in `rank_mapping`, then `suit_mapping`, defaulting to itself. -/
def format_card_label (template_name : String) : String :=
  if template_name = "" then ""
  else
    strMapGetD rank_mapping (familyOf template_name)
      (strMapGetD suit_mapping (familyOf template_name) (familyOf template_name))

/-- The rank validity decision of lines 728-736 for a slot, from the raw
rank score map: aggregate by family, pick top1/margin, apply the gate of
the slot type. -/
def slotRankValid (isBoard : Bool) (rank_scores : List (String × ℚ)) : Bool :=
  let r := choose_family_with_margin (aggregate_family_scores rank_scores)
  if isBoard then boardRankGate r.2.1 r.2.2 else heroRankGate r.2.1 r.2.2

/-- The suit validity decision of lines 728-737 for a slot. -/
def slotSuitValid (isBoard : Bool) (suit_scores : List (String × ℚ)) : Bool :=
  let s := choose_family_with_margin (aggregate_family_scores suit_scores)
  if isBoard then boardSuitGate s.2.1 s.2.2 else heroSuitGate s.2.1 s.2.2

/-- Steps 2-6 of `recognize_cards` (lines 713-764) for one processed
slot: from the raw template score maps of the rank and suit sub-zones,
the constructed `CardResult`. -/
def processSlot (sigmoid : ℚ → ℚ → ℚ) (isBoard : Bool)
    (rank_scores suit_scores : List (String × ℚ)) : CardResult :=
  let rc := choose_family_with_margin (aggregate_family_scores rank_scores)
  let sc := choose_family_with_margin (aggregate_family_scores suit_scores)
  let rank_valid := slotRankValid isBoard rank_scores
  let suit_valid := slotSuitValid isBoard suit_scores
  let rank_confidence := if pyTruthyStr rc.1 then sigmoid rc.2.1 rc.2.2 else 0
  let suit_confidence := if pyTruthyStr sc.1 then sigmoid sc.2.1 sc.2.2 else 0
  let combined := (rank_confidence + suit_confidence) / 2
  { rank := if rank_valid && pyTruthyStr rc.1 then some (format_card_label (rc.1.getD "")) else none
    suit := if suit_valid && pyTruthyStr sc.1 then some (format_card_label (sc.1.getD "")) else none
    rank_confidence := rank_confidence
    suit_confidence := suit_confidence
    combined_confidence := combined
    is_uncertain := decide (combined < confidence_threshold) || !rank_valid || !suit_valid
    rank_scores := rank_scores
    suit_scores := suit_scores }

/-- C5: for every processed slot, the combined confidence is the mean of
the rank and suit confidences, and the result is flagged uncertain
whenever the combined confidence is below the 0.3 threshold, or the rank
gate failed, or the suit gate failed. -/
theorem card_result_uncertain_invariant (sigmoid : ℚ → ℚ → ℚ) (isBoard : Bool)
    (rank_scores suit_scores : List (String × ℚ)) :
    (processSlot sigmoid isBoard rank_scores suit_scores).combined_confidence =
      ((processSlot sigmoid isBoard rank_scores suit_scores).rank_confidence +
        (processSlot sigmoid isBoard rank_scores suit_scores).suit_confidence) / 2 ∧
    ((processSlot sigmoid isBoard rank_scores suit_scores).combined_confidence <
        confidence_threshold →
      (processSlot sigmoid isBoard rank_scores suit_scores).is_uncertain = true) ∧
    (slotRankValid isBoard rank_scores = false →
      (processSlot sigmoid isBoard rank_scores suit_scores).is_uncertain = true) ∧
    (slotSuitValid isBoard suit_scores = false →
      (processSlot sigmoid isBoard rank_scores suit_scores).is_uncertain = true) := by
  refine ⟨rfl, ?_, ?_, ?_⟩
  · intro h
    simp only [processSlot] at h ⊢
    simp [h]
  · intro h
    simp [processSlot, h]
  · intro h
    simp [processSlot, h]

/-- Witness for C5: the empty score maps on a board slot fail the rank
gate, so the resulting `CardResult` is uncertain. -/
theorem card_result_uncertain_invariant_witness :
    (processSlot (fun _ _ => 0) true [] []).is_uncertain = true := by
  have h : slotRankValid true [] = false := by
    have e : choose_family_with_margin (aggregate_family_scores []) = (none, 0, 0) := rfl
    rw [slotRankValid]
    simp only [e, if_true]
    rw [boardRankGate, min_top1_score, min_top1_margin]
    norm_num
  exact (card_result_uncertain_invariant (fun _ _ => 0) true [] []).2.2.1 h

/-! ### Pot extraction (`text_recognition.py`, `extract_pot_value`,
lines 368-429)

Strings are processed as their character lists; the regular expressions
of the source are modelled as explicit character-level scanners.  A
Python `float` literal such as `float("1.25")` is modelled as the exact
decimal value (the claims only involve values on which the double
rounding is exact). -/

def isDigitChar (c : Char) : Bool := c.isDigit

/-- `re.sub(r'[^\d.,kKmM€]', ' ', text)`: every character outside the
kept class becomes a space. -/
def keepPotChar (c : Char) : Char :=
  if c.isDigit || c = '.' || c = ',' || c = 'k' || c = 'K' || c = 'm' || c = 'M' || c = '€'
  then c else ' '

/-- `character_corrections` of `_init_normalization_patterns`
(O/o→0, I/l→1, S/s→5, B/b→8, G/g→6), applied by
`_apply_character_corrections` via successive `str.replace` calls; as
every key is a single character and no replacement value is a key, this
equals a single character map. -/
def correctChar (c : Char) : Char :=
  if c = 'O' || c = 'o' then '0'
  else if c = 'I' || c = 'l' then '1'
  else if c = 'S' || c = 's' then '5'
  else if c = 'B' || c = 'b' then '8'
  else if c = 'G' || c = 'g' then '6'
  else c

/-- `TextRecognitionPipeline._apply_character_corrections`. -/
def apply_character_corrections (s : List Char) : List Char := s.map correctChar

/-- The anchored pattern `^7(\d+),(\d+)$` of `_fix_common_pot_errors`
with replacement `0,\2` (listed twice in the source).  Matches a full
string `7<digits>,<digits>`; both digit groups non-empty. -/
def matchP1 (s : List Char) : Option (List Char) :=
  match s with
  | '7' :: rest =>
      match rest.takeWhile isDigitChar, rest.dropWhile isDigitChar with
      | d :: _, ',' :: g2 =>
          if !g2.isEmpty && g2.all isDigitChar then
            let _ := d
            some ('0' :: ',' :: g2)
          else none
      | _, _ => none
  | _ => none

/-- The anchored pattern `^0,(\d{2})\d+$` with replacement `0,\1`. -/
def matchP3 (s : List Char) : Option (List Char) :=
  match s with
  | '0' :: ',' :: d1 :: d2 :: rest =>
      if isDigitChar d1 && isDigitChar d2 && !rest.isEmpty && rest.all isDigitChar then
        some ['0', ',', d1, d2]
      else none
  | _ => none

/-- The anchored pattern `^0,(\d{2})$` with replacement `0,\1`
(an identity substitution). -/
def matchP4 (s : List Char) : Option (List Char) :=
  match s with
  | ['0', ',', d1, d2] =>
      if isDigitChar d1 && isDigitChar d2 then some ['0', ',', d1, d2] else none
  | _ => none

/-- `TextRecognitionPipeline._fix_common_pot_errors` (lines 338-366):
the first matching anchored pattern is substituted (the first pattern is
listed twice in the source), otherwise the text is returned unchanged. -/
def fix_common_pot_errors (s : List Char) : List Char :=
  match matchP1 s with
  | some r => r
  | none =>
    match matchP1 s with
    | some r => r
    | none =>
      match matchP3 s with
      | some r => r
      | none =>
        match matchP4 s with
        | some r => r
        | none => s

/-- `re.findall(r'(\d+[.,]\d+)', ·)`: left-to-right, non-overlapping,
greedy scan for decimal-formatted numbers.  A failed attempt at the
start of a digit run fails at every position inside the run (the
separator and following characters are shared), so the scan resumes
after the run.  The fuel argument only bounds the recursion (every step
strictly shortens the list, so `s.length` fuel is never exhausted) and
keeps the definition structurally recursive. -/
def findDecimalsAux : Nat → List Char → List (List Char)
  | 0, _ => []
  | _, [] => []
  | fuel + 1, c :: rest =>
    if isDigitChar c then
      match (c :: rest).dropWhile isDigitChar with
      | [] => []
      | sep :: r2 =>
        if sep = '.' || sep = ',' then
          match r2.takeWhile isDigitChar with
          | [] => findDecimalsAux fuel (sep :: r2)
          | d :: ds =>
              ((c :: rest).takeWhile isDigitChar ++ sep :: d :: ds) ::
                findDecimalsAux fuel (r2.dropWhile isDigitChar)
        else findDecimalsAux fuel (sep :: r2)
    else findDecimalsAux fuel rest

def findDecimals (s : List Char) : List (List Char) :=
  findDecimalsAux s.length s

/-- `re.findall(r'(\d+)', ·)`: maximal digit runs, left to right (same
fuel scheme). -/
def findIntegersAux : Nat → List Char → List (List Char)
  | 0, _ => []
  | _, [] => []
  | fuel + 1, c :: rest =>
    if isDigitChar c then
      ((c :: rest).takeWhile isDigitChar) :: findIntegersAux fuel ((c :: rest).dropWhile isDigitChar)
    else findIntegersAux fuel rest

def findIntegers (s : List Char) : List (List Char) :=
  findIntegersAux s.length s

/-- Value of a digit string (as parsed by Python `float`/`int` on a
pure-digit group). -/
def digitsToNat (ds : List Char) : Nat :=
  ds.foldl (fun a c => 10 * a + (c.toNat - 48)) 0

/-- `float(last_decimal.replace(',', '.'))` on a `\d+[.,]\d+` match:
the exact decimal value integer-part `.` fraction-part. -/
def parseDecimal (d : List Char) : ℚ :=
  let ip := d.takeWhile isDigitChar
  match d.dropWhile isDigitChar with
  | _ :: fp => (digitsToNat ip : ℚ) + (digitsToNat fp : ℚ) / 10 ^ fp.length
  | [] => (digitsToNat ip : ℚ)

/-- `TextRecognitionPipeline.extract_pot_value` (lines 368-429): strip
to the kept character class (others become spaces), apply the character
corrections, apply the common pot-error fixes, then return the last
decimal-formatted number found, else the last integer found, else 0. -/
def extract_pot_value (text : String) : ℚ :=
  if text = "" then 0
  else
    let cleaned := apply_character_corrections (text.data.map keepPotChar)
    if cleaned = [] then 0
    else
      let corrected := fix_common_pot_errors cleaned
      match (findDecimals corrected).getLast? with
      | some dec => parseDecimal dec
      | none =>
        match (findIntegers corrected).getLast? with
        | some ds => (digitsToNat ds : ℚ)
        | none => 0

/-- C7: the pot extractor is invariant to label phrasing — every one of
the four phrasings of the claim yields 1.25. -/
theorem extract_pot_value_phrasings :
    extract_pot_value "Pot 1.25" = 5 / 4 ∧
    extract_pot_value "Pot total 1.25" = 5 / 4 ∧
    extract_pot_value "Side pot: 1.25" = 5 / 4 ∧
    extract_pot_value "TOTAL 1.25" = 5 / 4 := by
  have e : ((1 : ℕ) : ℚ) + ((25 : ℕ) : ℚ) / 10 ^ 2 = 5 / 4 := by norm_num
  refine ⟨?_, ?_, ?_, ?_⟩ <;> · rw [← e]; rfl

/-! ### Temporal stabilization (`text_recognition.py`, lines 484-544 and
657-675)

Per tracked element, the recognizer keeps `ema_values[name]` and
`stable_values[name]` (both `Optional[float]`); `last_update_times` is
wall-clock bookkeeping and not modelled.  The float literal `1e-9` is
the rational `1/10^9` (the binary double differs from it by less than
one part in 10^15, immaterial to every comparison involved). -/

structure EmaState where
  ema : Option ℚ := none
  stable : Option ℚ := none
deriving DecidableEq, Repr

/-- `max_value_change = 0.3` (30% relative-change ceiling). -/
def max_value_change : ℚ := 3 / 10

/-- `ema_alpha = 0.15`. -/
def ema_alpha : ℚ := 15 / 100

/-- `variation_threshold = 0.2`. -/
def variation_threshold : ℚ := 2 / 10

/-- `TextRecognitionPipeline._is_value_change_valid` (lines 484-508) for
a tracked element: no previous EMA value, or a zero one, always passes;
otherwise the relative change against `max(1e-9, abs(old))` must not
exceed the 30% ceiling. -/
def is_value_change_valid (st : EmaState) (new_value : ℚ) : Bool :=
  match st.ema with
  | none => true
  | some old =>
      if old = 0 then true
      else decide (|new_value - old| / max (1 / 10 ^ 9) |old| ≤ max_value_change)

/-- `TextRecognitionPipeline._apply_ema_filter` (lines 510-544): when a
positive EMA value exists and the relative change exceeds
`variation_threshold`, return the stable value (`or new_value`, i.e.
the new value when the stable one is `None` or `0`) without touching the
state; otherwise fold the value into the EMA and promote it to stable. -/
def apply_ema_filter (st : EmaState) (new_value : ℚ) : ℚ × EmaState :=
  match st.ema with
  | some e =>
      if e > 0 ∧ |new_value - e| / e > variation_threshold then
        ((match st.stable with
          | some s => if s = 0 then new_value else s
          | none => new_value), st)
      else
        let e2 := ema_alpha * new_value + (1 - ema_alpha) * e
        (e2, { ema := some e2, stable := some e2 })
  | none => (new_value, { ema := some new_value, stable := some new_value })

/-- Lines 657-675 of `recognize_text` for a numeric normalized value:
when the change is valid the EMA filter is applied; when it is not, the
new value is accepted as-is ("Accepte quand même") and the stored state
is left untouched. -/
def recognize_text_numeric_step (st : EmaState) (new_value : ℚ) : ℚ × EmaState :=
  if is_value_change_valid st new_value then apply_ema_filter st new_value
  else (new_value, st)

/-- C2, counterexample: with a stable non-zero prior of 1.0, the
candidate 2.0 (a 100% relative change, far above the 30% ceiling) is
flagged as an invalid change, yet the reported normalized value is 2.0
— the stable value 1.0 is not retained. -/
theorem ema_jump_accepted_cex :
    is_value_change_valid { ema := some 1, stable := some 1 } 2 = false ∧
    (recognize_text_numeric_step { ema := some 1, stable := some 1 } 2).1 = 2 ∧
    (2 : ℚ) ≠ 1 := by
  have hv : is_value_change_valid { ema := some 1, stable := some 1 } 2 = false := by
    rw [is_value_change_valid]
    simp only [max_value_change]
    norm_num
  refine ⟨hv, ?_, by norm_num⟩
  rw [recognize_text_numeric_step, hv]
  simp

/-- C2, amended: whenever the previous EMA value exists, is non-zero,
and the candidate's relative change exceeds the 30% ceiling, the change
is flagged invalid and the EMA update is skipped (the stored EMA/stable
state is unchanged), but the zone's reported normalized value is the new
candidate itself, not the previous stable value. -/
theorem ema_jump_rejection_behavior (st : EmaState) (old new_value : ℚ)
    (h1 : st.ema = some old) (h2 : old ≠ 0)
    (h3 : |new_value - old| / max (1 / 10 ^ 9) |old| > max_value_change) :
    is_value_change_valid st new_value = false ∧
    recognize_text_numeric_step st new_value = (new_value, st) := by
  have hv : is_value_change_valid st new_value = false := by
    rw [is_value_change_valid, h1]
    show (if old = 0 then true
        else decide (|new_value - old| / max (1 / 10 ^ 9) |old| ≤ max_value_change)) = false
    rw [if_neg h2]
    simpa using h3
  refine ⟨hv, ?_⟩
  rw [recognize_text_numeric_step, hv]
  simp

/-- Witness for C2's amended statement at the counterexample input. -/
theorem ema_jump_rejection_behavior_witness :
    is_value_change_valid { ema := some 1, stable := some 1 } 2 = false ∧
    recognize_text_numeric_step { ema := some 1, stable := some 1 } 2 =
      (2, { ema := some 1, stable := some 1 }) :=
  ema_jump_rejection_behavior { ema := some 1, stable := some 1 } 1 2 rfl
    (by norm_num) (by rw [max_value_change]; norm_num)

/-! ### Per-zone error isolation (`recognize_text`, lines 546-713)

`recognize_text` iterates over the extracted text zones; the whole body
of the per-zone processing (preprocessing, OCR, normalization, EMA
update) sits inside one `try`, whose `except` stores an empty/invalid
`TextResult` for that zone and continues.  The embedding abstracts the
per-zone body as a fallible function `process` of the zone's name, image
and that name's EMA state (the only mutable state the body reads or
writes is keyed by the zone's own name), returning the zone's
`TextResult` and updated state, or an exception. -/

/-- `TextResult` dataclass of `text_recognition.py`; a normalized value
is numeric or (for name zones) a string. -/
structure TextResult where
  text : String := ""
  confidence : ℚ := 0
  normalized_value : Option (ℚ ⊕ String) := none
  is_valid : Bool := false
  raw_ocr_text : String := ""
deriving DecidableEq, Repr

/-- The empty/invalid `TextResult` stored by the `except` branch
(lines 702-708). -/
def emptyTextResult : TextResult := {}

/-- The per-zone loop of `recognize_text` (lines 570-708): each zone is
processed with its own EMA state; an exception yields
`emptyTextResult` for that zone and leaves the state unchanged, and the
loop continues with the remaining zones either way. -/
def recognize_text_zones {Z : Type}
    (process : String → Z → EmaState → Except String (TextResult × EmaState))
    (st : String → EmaState) : List (String × Z) → List (String × TextResult)
  | [] => []
  | (n, z) :: rest =>
    match process n z (st n) with
    | Except.ok (r, st2) =>
        (n, r) :: recognize_text_zones process (fun m => if m = n then st2 else st m) rest
    | Except.error _ =>
        (n, emptyTextResult) :: recognize_text_zones process st rest

/-- The result list always carries exactly the input zones' names, in
order — no exception removes a zone or aborts the loop. -/
theorem recognize_text_zones_names {Z : Type}
    (process : String → Z → EmaState → Except String (TextResult × EmaState))
    (st : String → EmaState) (zones : List (String × Z)) :
    (recognize_text_zones process st zones).map Prod.fst = zones.map Prod.fst := by
  induction zones generalizing st with
  | nil => rfl
  | cons pz rest ih =>
    obtain ⟨n, z⟩ := pz
    rw [recognize_text_zones]
    cases hp : process n z (st n) with
    | ok rs =>
      obtain ⟨r, st2⟩ := rs
      simp [ih]
    | error e =>
      simp [ih]

/-- Unfolding of the zone loop when the head zone succeeds. -/
theorem recognize_text_zones_cons_ok {Z : Type}
    (process : String → Z → EmaState → Except String (TextResult × EmaState))
    (st : String → EmaState) (n : String) (z : Z) (rest : List (String × Z))
    (r : TextResult) (st2 : EmaState) (h : process n z (st n) = Except.ok (r, st2)) :
    recognize_text_zones process st ((n, z) :: rest) =
      (n, r) :: recognize_text_zones process (fun m => if m = n then st2 else st m) rest := by
  rw [recognize_text_zones, h]

/-- Unfolding of the zone loop when the head zone throws. -/
theorem recognize_text_zones_cons_error {Z : Type}
    (process : String → Z → EmaState → Except String (TextResult × EmaState))
    (st : String → EmaState) (n : String) (z : Z) (rest : List (String × Z))
    (e : String) (h : process n z (st n) = Except.error e) :
    recognize_text_zones process st ((n, z) :: rest) =
      (n, emptyTextResult) :: recognize_text_zones process st rest := by
  rw [recognize_text_zones, h]

/-- Two runs whose processing functions and states agree away from a
name that never occurs among the zones produce identical results. -/
theorem recognize_text_zones_congr {Z : Type}
    (p q : String → Z → EmaState → Except String (TextResult × EmaState))
    (st1 st2 : String → EmaState) (zones : List (String × Z)) (n0 : String)
    (hpq : ∀ m z s, m ≠ n0 → p m z s = q m z s)
    (hst : ∀ m, m ≠ n0 → st1 m = st2 m)
    (hzones : ∀ pz ∈ zones, Prod.fst pz ≠ n0) :
    recognize_text_zones p st1 zones = recognize_text_zones q st2 zones := by
  induction zones generalizing st1 st2 with
  | nil => rfl
  | cons pz rest ih =>
    obtain ⟨n, z⟩ := pz
    have hn : n ≠ n0 := hzones (n, z) (List.mem_cons_self _ _)
    have hrest : ∀ pz ∈ rest, Prod.fst pz ≠ n0 :=
      fun q2 hq2 => hzones q2 (List.mem_cons_of_mem _ hq2)
    have hsame : p n z (st1 n) = q n z (st2 n) := by
      rw [hst n hn]
      exact hpq n z (st2 n) hn
    cases hq : q n z (st2 n) with
    | ok rs =>
      obtain ⟨r, st3⟩ := rs
      have hp : p n z (st1 n) = Except.ok (r, st3) := by rw [hsame, hq]
      rw [recognize_text_zones_cons_ok p st1 n z rest r st3 hp,
        recognize_text_zones_cons_ok q st2 n z rest r st3 hq]
      refine congrArg (List.cons (n, r)) (ih _ _ ?_ hrest)
      intro m hm
      by_cases hmn : m = n
      · simp [hmn]
      · simp [hmn, hst m hm]
    | error e =>
      have hp : p n z (st1 n) = Except.error e := by rw [hsame, hq]
      rw [recognize_text_zones_cons_error p st1 n z rest e hp,
        recognize_text_zones_cons_error q st2 n z rest e hq]
      exact congrArg (List.cons (n, emptyTextResult)) (ih st1 st2 hst hrest)

/-- C9: an exception in one zone's processing yields the empty/invalid
`TextResult` for that zone only — every zone still receives exactly one
entry (the exception never propagates or aborts the loop), the failing
zone's entry is the empty result, and every other zone's entry is
exactly what it would have been had that zone not thrown. -/
theorem recognize_text_zone_isolation {Z : Type}
    (p q : String → Z → EmaState → Except String (TextResult × EmaState))
    (st : String → EmaState) (zones : List (String × Z)) (n0 : String)
    (hagree : ∀ m z s, m ≠ n0 → q m z s = p m z s)
    (herr : ∀ z s, ∃ e, q n0 z s = Except.error e)
    (hnodup : (zones.map Prod.fst).Nodup) :
    (recognize_text_zones q st zones).map Prod.fst = zones.map Prod.fst ∧
    (∀ pr ∈ recognize_text_zones q st zones, pr.1 = n0 → pr.2 = emptyTextResult) ∧
    (∀ i : Nat, ∀ pr : String × TextResult,
      (recognize_text_zones q st zones).get? i = some pr → pr.1 ≠ n0 →
      (recognize_text_zones p st zones).get? i = some pr) := by
  induction zones generalizing st with
  | nil =>
    refine ⟨rfl, by simp [recognize_text_zones], ?_⟩
    intro i pr hpr
    simp [recognize_text_zones] at hpr
  | cons pz rest ih =>
    obtain ⟨n, z⟩ := pz
    simp only [List.map_cons, List.nodup_cons] at hnodup
    obtain ⟨hnmem, hndrest⟩ := hnodup
    refine ⟨recognize_text_zones_names q st ((n, z) :: rest), ?_, ?_⟩
    · by_cases hn : n = n0
      · subst hn
        obtain ⟨e, he⟩ := herr z (st n)
        rw [recognize_text_zones_cons_error q st n z rest e he]
        intro pr hpr
        rcases List.mem_cons.mp hpr with hh | ht
        · intro _
          rw [hh]
        · intro hpn
          have hmem : pr.1 ∈ (recognize_text_zones q st rest).map Prod.fst :=
            List.mem_map_of_mem Prod.fst ht
          rw [recognize_text_zones_names] at hmem
          rw [hpn] at hmem
          exact absurd hmem hnmem
      · cases hq : q n z (st n) with
        | ok rs =>
          obtain ⟨r, st2⟩ := rs
          rw [recognize_text_zones_cons_ok q st n z rest r st2 hq]
          intro pr hpr
          rcases List.mem_cons.mp hpr with hh | ht
          · intro hpn
            rw [hh] at hpn
            exact absurd hpn hn
          · exact (ih _ hndrest).2.1 pr ht
        | error e =>
          rw [recognize_text_zones_cons_error q st n z rest e hq]
          intro pr hpr
          rcases List.mem_cons.mp hpr with hh | ht
          · intro _
            rw [hh]
          · exact (ih _ hndrest).2.1 pr ht
    · by_cases hn : n = n0
      · subst hn
        obtain ⟨e, he⟩ := herr z (st n)
        rw [recognize_text_zones_cons_error q st n z rest e he]
        have hforall : ∀ pz ∈ rest, Prod.fst pz ≠ n := by
          intro pz hpz hc
          exact hnmem (hc ▸ List.mem_map_of_mem Prod.fst hpz)
        intro i pr hget hne
        cases i with
        | zero =>
          simp only [List.get?_cons_zero, Option.some_inj] at hget
          rw [← hget] at hne
          exact absurd rfl hne
        | succ j =>
          simp only [List.get?_cons_succ] at hget
          cases hp : p n z (st n) with
          | ok rs =>
            obtain ⟨r, st2⟩ := rs
            rw [recognize_text_zones_cons_ok p st n z rest r st2 hp]
            have heq : recognize_text_zones p (fun m => if m = n then st2 else st m) rest =
                recognize_text_zones q st rest := by
              refine recognize_text_zones_congr p q _ st rest n ?_ ?_ hforall
              · intro m z2 s hm
                exact (hagree m z2 s hm).symm
              · intro m hm
                simp [hm]
            simp only [List.get?_cons_succ, heq]
            exact hget
          | error e2 =>
            rw [recognize_text_zones_cons_error p st n z rest e2 hp]
            have heq : recognize_text_zones p st rest = recognize_text_zones q st rest := by
              refine recognize_text_zones_congr p q st st rest n ?_ (fun _ _ => rfl) hforall
              intro m z2 s hm
              exact (hagree m z2 s hm).symm
            simp only [List.get?_cons_succ, heq]
            exact hget
      · have hsame : q n z (st n) = p n z (st n) := hagree n z (st n) hn
        cases hq : q n z (st n) with
        | ok rs =>
          obtain ⟨r, st2⟩ := rs
          have hp : p n z (st n) = Except.ok (r, st2) := by rw [← hsame, hq]
          rw [recognize_text_zones_cons_ok q st n z rest r st2 hq,
            recognize_text_zones_cons_ok p st n z rest r st2 hp]
          intro i pr hget hne
          cases i with
          | zero => exact hget
          | succ j =>
            simp only [List.get?_cons_succ] at hget ⊢
            exact (ih _ hndrest).2.2 j pr hget hne
        | error e =>
          have hp : p n z (st n) = Except.error e := by rw [← hsame, hq]
          rw [recognize_text_zones_cons_error q st n z rest e hq,
            recognize_text_zones_cons_error p st n z rest e hp]
          intro i pr hget hne
          cases i with
          | zero => exact hget
          | succ j =>
            simp only [List.get?_cons_succ] at hget ⊢
            exact (ih _ hndrest).2.2 j pr hget hne

/-- A per-zone body that always succeeds with an empty result and an
unchanged state (stand-in for a normal OCR pass). -/
def zoneProcOk : String → Unit → EmaState → Except String (TextResult × EmaState) :=
  fun _ _ s => Except.ok ({}, s)

/-- The same body, but throwing on the `pot_combined` zone. -/
def zoneProcBoom : String → Unit → EmaState → Except String (TextResult × EmaState) :=
  fun m z s => if m = "pot_combined" then Except.error "boom" else zoneProcOk m z s

/-- A two-zone frame. -/
def zoneListEx : List (String × Unit) := [("pot_combined", ()), ("hero_stack", ())]

/-- Witness for C9 at a concrete two-zone frame whose first zone throws. -/
theorem recognize_text_zone_isolation_witness :
    (recognize_text_zones zoneProcBoom (fun _ => {}) zoneListEx).map Prod.fst =
      zoneListEx.map Prod.fst ∧
    (∀ pr ∈ recognize_text_zones zoneProcBoom (fun _ => {}) zoneListEx,
      pr.1 = "pot_combined" → pr.2 = emptyTextResult) ∧
    (∀ i : Nat, ∀ pr : String × TextResult,
      (recognize_text_zones zoneProcBoom (fun _ => {}) zoneListEx).get? i = some pr →
      pr.1 ≠ "pot_combined" →
      (recognize_text_zones zoneProcOk (fun _ => {}) zoneListEx).get? i = some pr) :=
  recognize_text_zone_isolation zoneProcOk zoneProcBoom (fun _ => {}) zoneListEx "pot_combined"
    (fun m z s hm => by simp [zoneProcBoom, hm])
    (fun z s => ⟨"boom", by simp [zoneProcBoom]⟩)
    (by simp [zoneListEx])

/-! ### Canonical card preprocessing (`card_recognition.py`,
`_preprocess_image`, lines 164-181)

`cv2.resize(img, (56, 56))` followed by `cv2.GaussianBlur(·, (3, 3), 0)`
on 8-bit grayscale images.  The embedding models a grayscale image as a
total function from 56×56 coordinates to grey values and follows the
OpenCV semantics of the two calls exactly on canonical-size inputs:

* With `sigma = 0` and kernel size 3 OpenCV uses the fixed separable
  kernel `[0.25, 0.5, 0.25]`; for 8-bit input the filter runs in fixed
  point with the kernel scaled by 2^8 (`[64, 128, 64]` per axis) and the
  result descaled as `(sum + 2^15) >> 16`, with `BORDER_REFLECT_101`
  edge handling.
* `cv2.resize` of a 56×56 image to 56×56 with the default bilinear
  interpolation maps every output pixel to the source coordinate
  `(dst + 0.5)·1 − 0.5 = dst`, an integral position with full weight, so
  it is bit-identically the identity — `resize_canonical` below. -/

/-- An 8-bit grayscale image at the canonical 56×56 size. -/
def GrayImage : Type := Fin 56 → Fin 56 → ℕ

/-- `BORDER_REFLECT_101` index folding (valid for the offsets ±1 used by
the 3×3 kernel; the outer `% 56` only makes the function total). -/
def ref56 (i : ℤ) : Fin 56 :=
  ⟨(if i < 0 then -i else if 55 < i then 110 - i else i).toNat % 56,
    Nat.mod_lt _ (by norm_num)⟩

/-- Pixel access with border reflection. -/
def px (img : GrayImage) (y x : ℤ) : ℕ := img (ref56 y) (ref56 x)

/-- The fixed-point 3-tap Gaussian kernel `[64, 128, 64]` (that is,
`[0.25, 0.5, 0.25] * 2^8`). -/
def gk (d : ℤ) : ℕ := if d = 0 then 128 else 64

/-- `cv2.GaussianBlur(img, (3, 3), 0)` on 8-bit grayscale: separable
fixed-point convolution with descaling `(sum + 2^15) >> 16`. -/
def gaussian_blur3 (img : GrayImage) : GrayImage := fun y x =>
  ((([-1, 0, 1] : List ℤ).map (fun dy =>
      (([-1, 0, 1] : List ℤ).map (fun dx =>
        gk dy * gk dx * px img ((y : ℤ) + dy) ((x : ℤ) + dx))).sum)).sum + 32768) / 65536

/-- `cv2.resize` of a canonical-size image to the canonical size
(bilinear, scale 1): the identity, bit for bit. -/
def resize_canonical (img : GrayImage) : GrayImage := img

/-- `CardRecognitionPipeline._preprocess_image` on a canonical-size
grayscale input: resize to 56×56 (the identity here), then the light
Gaussian blur. -/
def preprocess_image (img : GrayImage) : GrayImage :=
  gaussian_blur3 (resize_canonical img)

/-- A single bright pixel at the center of a black image. -/
def impulseImg : GrayImage := fun y x => if y = 28 ∧ x = 28 then 255 else 0

/-- C8, counterexample: preprocessing is not idempotent — on the impulse
image the center pixel is 64 after one application and 36 after two (the
blur smooths further each time). -/
theorem preprocess_not_idempotent_cex :
    preprocess_image (preprocess_image impulseImg) 28 28 ≠ preprocess_image impulseImg 28 28 := by
  decide

/-- Blurring a constant image returns it unchanged (the kernel weights
sum to 2^16 and the rounding bias is below the descale unit). -/
theorem gaussian_blur3_const (c : ℕ) : gaussian_blur3 (fun _ _ => c) = fun _ _ => c := by
  funext y x
  simp only [gaussian_blur3, px, List.map_cons, List.map_nil, List.sum_cons, List.sum_nil, gk]
  norm_num
  omega

/-- C8, amended: the canonical preprocessing is not idempotent in
general — a second application applies a second blur (the second resize
is the identity), which changes non-blur-invariant images such as the
impulse image; idempotence does hold on blur-fixed inputs such as
constant images. -/
theorem preprocess_idempotent_iff_blur_fixed :
    (∀ c : ℕ, preprocess_image (preprocess_image (fun _ _ => c)) =
      preprocess_image (fun _ _ => c)) ∧
    (∀ img : GrayImage, preprocess_image (preprocess_image img) =
      gaussian_blur3 (preprocess_image img)) := by
  constructor
  · intro c
    show gaussian_blur3 (gaussian_blur3 (fun _ _ => c)) = gaussian_blur3 (fun _ _ => c)
    rw [gaussian_blur3_const c]
    exact gaussian_blur3_const c
  · intro img
    rfl

/-! ### Frame assembly of `recognize_cards` (lines 665-705, 769-804,
806-857)

The per-slot imaging steps (ROI extraction from the YAML layout, the
rank/suit sub-zone extraction of `_extract_rank_suit_zones`, the
blank-zone test of `_is_blank_zone`, the template matching of
`_template_matching_multi_variants`) are taken as function parameters;
the loop structure, skip conditions and slot routing are modelled
exactly.  Python string helpers (`str.lower` on the ASCII names,
substring `in`, `split(sep)[-1]`, `int(·)` without the underscore-digit
extension) are modelled at character level. -/

/-- `str.lower()` (the slot names are ASCII). -/
def pyLower (s : String) : String := String.mk (s.data.map Char.toLower)

/-- `needle in hay` for strings (character lists). -/
def containsSub (hay needle : List Char) : Bool :=
  match hay with
  | [] => needle.isEmpty
  | _ :: rest => needle.isPrefixOf hay || containsSub rest needle

def pyContains (hay needle : String) : Bool := containsSub hay.data needle.data

/-- `hay.split(needle)[-1]` for a non-self-overlapping separator: the
suffix after the last left-to-right non-overlapping occurrence (the
whole string when the separator does not occur).  Fuel keeps the
recursion structural; `hay.length` fuel is never exhausted. -/
def splitLastAux : Nat → List Char → List Char → List Char
  | 0, _, hay => hay
  | fuel + 1, needle, hay =>
    if containsSub hay needle ∧ ¬ needle.isEmpty then
      match hay with
      | [] => []
      | c :: rest =>
        if needle.isPrefixOf (c :: rest) then
          splitLastAux fuel needle ((c :: rest).drop needle.length)
        else splitLastAux fuel needle rest
    else hay

def splitLast (needle hay : List Char) : List Char :=
  splitLastAux hay.length needle hay

/-- `int(s)` on stripped input: optional sign then a non-empty digit
string (Python's underscore-grouped digits do not occur among slot
names and are not modelled); any other input raises `ValueError`,
modelled as `none`. -/
def pyInt? (s : List Char) : Option ℤ :=
  let t := ((s.dropWhile (fun c => c = ' ')).reverse.dropWhile (fun c => c = ' ')).reverse
  match t with
  | '-' :: ds =>
      if !ds.isEmpty && ds.all isDigitChar then some (-(digitsToNat ds : ℤ)) else none
  | '+' :: ds =>
      if !ds.isEmpty && ds.all isDigitChar then some ((digitsToNat ds : ℤ)) else none
  | ds =>
      if !ds.isEmpty && ds.all isDigitChar then some ((digitsToNat ds : ℤ)) else none

/-- A destination slot: hero 0/1 or board 0..4. -/
inductive SlotId where
  | hero (i : Fin 2)
  | board (i : Fin 5)
deriving DecidableEq, Repr

/-- The slot routing of `recognize_cards` lines 769-804: hero names go
left/right; board names have their index parsed from the part after the
last `card` (or after the last underscore), with `int` failures and
out-of-range indices skipped. -/
def routeSlot (card_name : String) : Option SlotId :=
  let lname := pyLower card_name
  if pyContains lname "hero" then
    if pyContains lname "left" then some (SlotId.hero 0)
    else if pyContains lname "right" then some (SlotId.hero 1)
    else none
  else if pyContains lname "board" then
    let idxStr :=
      if pyContains lname "card" then splitLast "card".data card_name.data
      else splitLast "_".data card_name.data
    match pyInt? idxStr with
    | some k =>
        if h : 0 ≤ k - 1 ∧ k - 1 < 5 then
          some (SlotId.board ⟨(k - 1).toNat, by omega⟩)
        else none
    | none => none
  else none

/-- The per-ROI step of the `recognize_cards` loop (lines 685-804): the
slot written and the result written there, or `none` when the slot is
skipped (missing rank or suit sub-zone, both sub-zones blank, or no
routable slot name/index). -/
def slotWrite {R Z : Type}
    (extractZones : String → R → Option Z × Option Z)
    (isBlank : Z → Bool)
    (rankScore suitScore : Z → List (String × ℚ))
    (sigmoid : ℚ → ℚ → ℚ)
    (nm : String) (roi : R) : Option (SlotId × CardResult) :=
  match extractZones nm roi with
  | (some rz, some sz) =>
    if isBlank rz && isBlank sz then none
    else
      let res := processSlot sigmoid (pyContains (pyLower nm) "board")
        (rankScore rz) (suitScore sz)
      match routeSlot nm with
      | some slot => some (slot, res)
      | none => none
  | _ => none

/-- `recognize_cards` (lines 665-857) without the imaging: starting from
`[CardResult()] * 2` and `[CardResult()] * 5`, fold every extracted ROI
through the per-slot step (the deep copies and the temporal filtering —
disabled in the source — do not alter the lists). -/
def cardStep {R Z : Type}
    (extractZones : String → R → Option Z × Option Z)
    (isBlank : Z → Bool)
    (rankScore suitScore : Z → List (String × ℚ))
    (sigmoid : ℚ → ℚ → ℚ)
    (acc : List CardResult × List CardResult) (pr : String × R) :
    List CardResult × List CardResult :=
  match slotWrite extractZones isBlank rankScore suitScore sigmoid pr.1 pr.2 with
  | some (SlotId.hero i, res) => (acc.1.set i res, acc.2)
  | some (SlotId.board i, res) => (acc.1, acc.2.set i res)
  | none => acc

def recognize_cards_model {R Z : Type}
    (extractZones : String → R → Option Z × Option Z)
    (isBlank : Z → Bool)
    (rankScore suitScore : Z → List (String × ℚ))
    (sigmoid : ℚ → ℚ → ℚ)
    (rois : List (String × R)) : List CardResult × List CardResult :=
  rois.foldl (cardStep extractZones isBlank rankScore suitScore sigmoid)
    ([defaultCardResult, defaultCardResult],
     [defaultCardResult, defaultCardResult, defaultCardResult, defaultCardResult,
      defaultCardResult])

theorem cardStep_fold_length {R Z : Type}
    (extractZones : String → R → Option Z × Option Z) (isBlank : Z → Bool)
    (rankScore suitScore : Z → List (String × ℚ)) (sigmoid : ℚ → ℚ → ℚ)
    (rois : List (String × R)) (acc : List CardResult × List CardResult) :
    (rois.foldl (cardStep extractZones isBlank rankScore suitScore sigmoid) acc).1.length =
      acc.1.length ∧
    (rois.foldl (cardStep extractZones isBlank rankScore suitScore sigmoid) acc).2.length =
      acc.2.length := by
  induction rois generalizing acc with
  | nil => exact ⟨rfl, rfl⟩
  | cons pr rest ih =>
    rw [List.foldl_cons]
    refine ⟨?_, ?_⟩ <;>
    · rcases hw : slotWrite extractZones isBlank rankScore suitScore sigmoid pr.1 pr.2 with
        _ | ⟨_ | _, res⟩ <;>
        simp [cardStep, hw, (ih _).1, (ih _).2, List.length_set]

theorem cardStep_fold_hero_untouched {R Z : Type}
    (extractZones : String → R → Option Z × Option Z) (isBlank : Z → Bool)
    (rankScore suitScore : Z → List (String × ℚ)) (sigmoid : ℚ → ℚ → ℚ)
    (rois : List (String × R)) (acc : List CardResult × List CardResult) (i : Fin 2)
    (h : ∀ pr ∈ rois, ∀ res,
      slotWrite extractZones isBlank rankScore suitScore sigmoid pr.1 pr.2 ≠
        some (SlotId.hero i, res)) :
    (rois.foldl (cardStep extractZones isBlank rankScore suitScore sigmoid) acc).1.get? i =
      acc.1.get? i := by
  induction rois generalizing acc with
  | nil => rfl
  | cons pr rest ih =>
    have hrest : ∀ pr2 ∈ rest, ∀ res,
        slotWrite extractZones isBlank rankScore suitScore sigmoid pr2.1 pr2.2 ≠
          some (SlotId.hero i, res) :=
      fun pr2 hm res => h pr2 (List.mem_cons_of_mem _ hm) res
    rw [List.foldl_cons]
    rcases hw : slotWrite extractZones isBlank rankScore suitScore sigmoid pr.1 pr.2 with
      _ | ⟨j | j, res⟩
    · rw [show cardStep extractZones isBlank rankScore suitScore sigmoid acc pr = acc by
        rw [cardStep, hw]]
      exact ih _ hrest
    · have hji : j ≠ i := by
        intro hji
        exact h pr (List.mem_cons_self _ _) res (by rw [hw, hji])
      have hstep : cardStep extractZones isBlank rankScore suitScore sigmoid acc pr =
          (acc.1.set j res, acc.2) := by
        rw [cardStep, hw]
      rw [hstep, ih _ hrest]
      exact List.get?_set_ne res acc.1 (fun hc => hji (Fin.val_injective hc))
    · have hstep : cardStep extractZones isBlank rankScore suitScore sigmoid acc pr =
          (acc.1, acc.2.set j res) := by
        rw [cardStep, hw]
      rw [hstep, ih _ hrest]

theorem cardStep_fold_board_untouched {R Z : Type}
    (extractZones : String → R → Option Z × Option Z) (isBlank : Z → Bool)
    (rankScore suitScore : Z → List (String × ℚ)) (sigmoid : ℚ → ℚ → ℚ)
    (rois : List (String × R)) (acc : List CardResult × List CardResult) (i : Fin 5)
    (h : ∀ pr ∈ rois, ∀ res,
      slotWrite extractZones isBlank rankScore suitScore sigmoid pr.1 pr.2 ≠
        some (SlotId.board i, res)) :
    (rois.foldl (cardStep extractZones isBlank rankScore suitScore sigmoid) acc).2.get? i =
      acc.2.get? i := by
  induction rois generalizing acc with
  | nil => rfl
  | cons pr rest ih =>
    have hrest : ∀ pr2 ∈ rest, ∀ res,
        slotWrite extractZones isBlank rankScore suitScore sigmoid pr2.1 pr2.2 ≠
          some (SlotId.board i, res) :=
      fun pr2 hm res => h pr2 (List.mem_cons_of_mem _ hm) res
    rw [List.foldl_cons]
    rcases hw : slotWrite extractZones isBlank rankScore suitScore sigmoid pr.1 pr.2 with
      _ | ⟨j | j, res⟩
    · rw [show cardStep extractZones isBlank rankScore suitScore sigmoid acc pr = acc by
        rw [cardStep, hw]]
      exact ih _ hrest
    · have hstep : cardStep extractZones isBlank rankScore suitScore sigmoid acc pr =
          (acc.1.set j res, acc.2) := by
        rw [cardStep, hw]
      rw [hstep, ih _ hrest]
    · have hji : j ≠ i := by
        intro hji
        exact h pr (List.mem_cons_self _ _) res (by rw [hw, hji])
      have hstep : cardStep extractZones isBlank rankScore suitScore sigmoid acc pr =
          (acc.1, acc.2.set j res) := by
        rw [cardStep, hw]
      rw [hstep, ih _ hrest]
      exact List.get?_set_ne res acc.2 (fun hc => hji (Fin.val_injective hc))

/-- C10: every recognition frame carries exactly 2 hero and 5 board
entries, and every slot no ROI writes to (skipped for a missing
sub-zone, blank sub-zones, or an unroutable name — or simply absent from
the extracted ROIs) holds the default `CardResult`: no rank, no suit,
all confidences 0, uncertain, empty score maps. -/
theorem recognize_cards_frame_shape {R Z : Type}
    (extractZones : String → R → Option Z × Option Z) (isBlank : Z → Bool)
    (rankScore suitScore : Z → List (String × ℚ)) (sigmoid : ℚ → ℚ → ℚ)
    (rois : List (String × R)) :
    defaultCardResult =
      { rank := none, suit := none, rank_confidence := 0, suit_confidence := 0,
        combined_confidence := 0, is_uncertain := true, rank_scores := [],
        suit_scores := [] } ∧
    (recognize_cards_model extractZones isBlank rankScore suitScore sigmoid rois).1.length = 2 ∧
    (recognize_cards_model extractZones isBlank rankScore suitScore sigmoid rois).2.length = 5 ∧
    (∀ i : Fin 2, (∀ pr ∈ rois, ∀ res,
        slotWrite extractZones isBlank rankScore suitScore sigmoid pr.1 pr.2 ≠
          some (SlotId.hero i, res)) →
      (recognize_cards_model extractZones isBlank rankScore suitScore sigmoid rois).1.get? i =
        some defaultCardResult) ∧
    (∀ i : Fin 5, (∀ pr ∈ rois, ∀ res,
        slotWrite extractZones isBlank rankScore suitScore sigmoid pr.1 pr.2 ≠
          some (SlotId.board i, res)) →
      (recognize_cards_model extractZones isBlank rankScore suitScore sigmoid rois).2.get? i =
        some defaultCardResult) := by
  refine ⟨rfl, ?_, ?_, ?_, ?_⟩
  · exact (cardStep_fold_length extractZones isBlank rankScore suitScore sigmoid rois _).1
  · exact (cardStep_fold_length extractZones isBlank rankScore suitScore sigmoid rois _).2
  · intro i hi
    rw [recognize_cards_model,
      cardStep_fold_hero_untouched extractZones isBlank rankScore suitScore sigmoid rois _ i hi]
    match i with
    | ⟨0, _⟩ => rfl
    | ⟨1, _⟩ => rfl
  · intro i hi
    rw [recognize_cards_model,
      cardStep_fold_board_untouched extractZones isBlank rankScore suitScore sigmoid rois _ i hi]
    match i with
    | ⟨0, _⟩ => rfl
    | ⟨1, _⟩ => rfl
    | ⟨2, _⟩ => rfl
    | ⟨3, _⟩ => rfl
    | ⟨4, _⟩ => rfl

/-- Witness for C10: with no extracted ROIs, both hero slots and all
board slots hold the default `CardResult`, and the lists have lengths 2
and 5. -/
theorem recognize_cards_frame_shape_witness :
    (recognize_cards_model (fun (_ : String) (_ : Unit) => ((none : Option Unit), none))
      (fun _ => true) (fun _ => []) (fun _ => []) (fun _ _ => 0) []).1.length = 2 ∧
    (recognize_cards_model (fun (_ : String) (_ : Unit) => ((none : Option Unit), none))
      (fun _ => true) (fun _ => []) (fun _ => []) (fun _ _ => 0) []).1.get? (0 : Fin 2) =
      some defaultCardResult ∧
    (recognize_cards_model (fun (_ : String) (_ : Unit) => ((none : Option Unit), none))
      (fun _ => true) (fun _ => []) (fun _ => []) (fun _ _ => 0) []).2.get? (4 : Fin 5) =
      some defaultCardResult := by
  refine ⟨?_, ?_, ?_⟩
  · exact (recognize_cards_frame_shape (fun _ _ => (none, none)) (fun _ => true)
      (fun _ => []) (fun _ => []) (fun _ _ => 0) []).2.1
  · exact (recognize_cards_frame_shape (fun _ _ => (none, none)) (fun _ => true)
      (fun _ => []) (fun _ => []) (fun _ _ => 0) []).2.2.2.1 0
      (fun pr hpr => absurd hpr (List.not_mem_nil pr))
  · exact (recognize_cards_frame_shape (fun _ _ => (none, none)) (fun _ => true)
      (fun _ => []) (fun _ => []) (fun _ _ => 0) []).2.2.2.2 4
      (fun pr hpr => absurd hpr (List.not_mem_nil pr))
